import Mathlib

/-!
# Verification of the `scan` CLI core (src/src/_scan.js)

Shallow embedding of the destination-resolution and concurrent-completion
engine of the `scan` command-line tool.  Filesystem state is modelled as
explicit functions (`String → Bool` for existence queries, `String → Option Nat`
for file sizes), the two asynchronous operations of the orchestrator are
modelled as event traces joined by an explicit interleaving, and the
`process.exit` / thrown-error control flow is modelled by explicit result
types carrying exit codes.
-/

namespace Scan

/-! ## Character classes of the filename validator

Embeds the regex at src/src/_scan.js line 27:
`/^[^<>:"'`/\\|?*\s]+([ .][^<>:"'`/\\|?*\s.]+)*$/`.
`badFilenameChar` is the explicit exclusion set (the characters listed in
both character classes); `isSpaceChar` is the JS `\s` class (ASCII part).
'\x27' is the apostrophe and '\x60' the backquote character.
-/

def badFilenameChar (c : Char) : Bool :=
  c == '<' || c == '>' || c == ':' || c == '"' || c == '\x27' || c == '\x60' ||
  c == '/' || c == '\\' || c == '|' || c == '?' || c == '*'

/-- JS `\s` (ASCII whitespace: space, tab, newline, carriage return,
vertical tab, form feed). -/
def isSpaceChar (c : Char) : Bool :=
  c == ' ' || c == '\t' || c == '\n' || c == '\r' || c == '\x0b' || c == '\x0c'

/-- Characters admitted by the regex's first character class
`[^<>:"'`/\\|?*\s]` (note: the dot is admitted here). -/
def goodChar1 (c : Char) : Bool := !badFilenameChar c && !isSpaceChar c

/-- Characters admitted by the regex's second character class
`[^<>:"'`/\\|?*\s.]` (same set, the dot additionally excluded). -/
def goodChar2 (c : Char) : Bool := goodChar1 c && !(c == '.')

/-! The regex language is deterministic under maximal munch: inside `([ .]r)*`
groups the run characters (`goodChar2`) are disjoint from the two delimiters
`' '` and `'.'`, so each run is forced maximal; and a first run shorter than
the maximal `goodChar1` prefix only defers `'.'`-delimited `goodChar2` runs,
which are themselves `goodChar1` material, so taking the maximal first run
accepts exactly the same strings.  `groupsOk` consumes the group list
(fuel-indexed recursion; the fuel is at least the remaining length, and every
group consumes at least two characters). -/

def groupsOk : Nat → List Char → Bool
  | _, [] => true
  | 0, _ :: _ => false
  | fuel+1, c :: rest =>
    (c == ' ' || c == '.') &&
    !(rest.takeWhile goodChar2).isEmpty &&
    groupsOk fuel (rest.dropWhile goodChar2)

/-- `validFilename.test(s)` — the regex at src/src/_scan.js line 27, as the
maximal-munch matcher of its (deterministic) language. -/
def validFilename (s : List Char) : Bool :=
  !(s.takeWhile goodChar1).isEmpty &&
  groupsOk s.length (s.dropWhile goodChar1)

/-! ## The spec-side filename grammar (for the refinement claim C5)

Modelled from the spec's words: "a non-empty run of characters excluding the
set `< > : " ' backtick / \ | ? *` and whitespace, optionally followed by
repeated groups of (a single space or dot) plus another such run".  The
predicate is parameterised by the character class of the runs inside the
groups so that the spec's grammar (`goodChar1`: dot allowed in every run) and
the corrected grammar (`goodChar2`: dot excluded from the group runs, as the
source regex has it) can both be expressed. -/

inductive GroupsG (run : Char → Bool) : List Char → Prop
  | nil : GroupsG run []
  | cons (d : Char) (r rest : List Char) :
      (d = ' ' ∨ d = '.') → r ≠ [] → (∀ c ∈ r, run c = true) →
      GroupsG run rest → GroupsG run (d :: (r ++ rest))

def FilenameGrammar (run : Char → Bool) (s : List Char) : Prop :=
  ∃ r0 rest, s = r0 ++ rest ∧ r0 ≠ [] ∧ (∀ c ∈ r0, goodChar1 c = true) ∧
    GroupsG run rest

/-- A literal double space somewhere in the string. -/
def hasDoubleSpace : List Char → Bool
  | a :: b :: rest => (a == ' ' && b == ' ') || hasDoubleSpace (b :: rest)
  | _ => false

/-! ## POSIX path helpers used by the resolver

Models of node's `path.join`, `path.dirname`, `path.basename` and
`path.extname` for the paths this program manipulates (POSIX paths without
repeated or trailing separators — the only shapes the resolver produces and
the claims mention). -/

/-- `path.join(a, b)` for a non-empty head and a clean relative tail. -/
def joinPath (a b : String) : String := a ++ "/" ++ b

/-- `path.basename(s)`: the portion after the last `'/'`. -/
def pathBasename (s : String) : String :=
  String.mk ((s.data.reverse.takeWhile (fun c => !(c == '/'))).reverse)

/-- `path.dirname(s)`: the portion before the last `'/'` (`"."` if there is
no separator, `"/"` if the only separator is the leading one). -/
def pathDirname (s : String) : String :=
  match s.data.reverse.dropWhile (fun c => !(c == '/')) with
  | [] => "."
  | [_] => "/"
  | _ :: rest => String.mk rest.reverse

/-- `path.extname(s)`: from the last `'.'` of the basename to the end; empty
when the basename has no dot or only its leading character is a dot. -/
def pathExtname (s : String) : String :=
  let b := (pathBasename s).data
  let afterRev := b.reverse.takeWhile (fun c => !(c == '.'))
  if afterRev.length + 1 ≤ b.length then
    if afterRev.length + 1 = b.length then ""
    else String.mk ('.' :: afterRev.reverse)
  else ""

/-- `path.basename(s, suffix)`: like `pathBasename`, but with `suffix`
removed when the basename ends with it and is not equal to it. -/
def pathBasenameSuffix (s suffix : String) : String :=
  let b := pathBasename s
  if suffix = "" then b
  else if b ≠ suffix ∧ suffix.data.isSuffixOf b.data then
    String.mk (b.data.take (b.data.length - suffix.data.length))
  else b

/-- `.replace('.', '')` applied to an `extname` result (whose sole dot, when
present, is the leading character; JS `replace` with a string pattern
replaces the first occurrence). -/
def stripFirstDot (s : String) : String :=
  match s.data with
  | '.' :: t => String.mk t
  | _ => s

/-- `.toLocaleLowerCase()` / `.toLowerCase()` on the ASCII strings involved. -/
def strLower (s : String) : String := String.mk (s.data.map Char.toLower)

/-- JS `String.prototype.trim()`: strip whitespace from both ends. -/
def trimString (s : String) : String :=
  String.mk (((s.data.dropWhile isSpaceChar).reverse.dropWhile isSpaceChar).reverse)

/-! ## Environment and destination resolution (src/src/_scan.js lines 13-15, 127-175) -/

/-- The process-wide constants and the filesystem queries `getDestination`
performs: `fsIsDir p` is `fs.existsSync(p) && fs.lstatSync(p).isDirectory()`,
`fsExists p` is `fs.existsSync(p)`. -/
structure Env where
  scriptDir : String
  homeDir : String
  currentDir : String
  fsIsDir : String → Bool
  fsExists : String → Bool

def knownExtensions : List String := ["pdf", "jpg", "png"]

/-- src/src/_scan.js line 129: substitute `homeDir/Pictures/scan` for the
script's own directory and the home directory. -/
def avoidScriptAndHomeDir (env : Env) (dir : String) : String :=
  if dir = env.scriptDir ∨ dir = env.homeDir then
    joinPath (joinPath env.homeDir "Pictures") "scan"
  else dir

/-- Result of `getDestination`: either `process.exit(code)` or the triple
`[targetDir, suggestedBasename, ext]` (ext `""` means unresolved). -/
inductive DestResult where
  | exit (code : Nat)
  | ok (dir basename ext : String)
deriving DecidableEq

/-- src/src/_scan.js lines 137-175 (`getDestination`). -/
def getDestination (env : Env) (args : List String) : DestResult :=
  let rawPath := trimString (String.intercalate " " args)
  if rawPath = "" then
    DestResult.ok (avoidScriptAndHomeDir env env.currentDir) "" ""
  else if env.fsIsDir rawPath then
    -- no avoidScriptAndHomeDir(), because okay, if explicitly requested
    DestResult.ok rawPath "" ""
  else
    let possibleDir := pathDirname rawPath
    let possibleFilename := pathBasename rawPath
    let possibleExt0 := strLower (stripFirstDot (pathExtname rawPath))
    let possibleExt :=
      if knownExtensions.contains (strLower possibleExt0) then possibleExt0 else ""
    let possibleBasename :=
      pathBasenameSuffix rawPath (if possibleExt = "" then "" else "." ++ possibleExt)
    if !(validFilename possibleFilename.data) then DestResult.exit 1
    else if !(env.fsExists possibleDir) then DestResult.exit 1
    else DestResult.ok (avoidScriptAndHomeDir env possibleDir) possibleBasename possibleExt

/-! ## Default filename generation (src/src/_scan.js lines 183-203) -/

/-- `String(index).padStart(2, '0')`. -/
def pad2 (n : Nat) : String := if n < 10 then "0" ++ toString n else toString n

/-- The candidate base `` `${isoDate} scan ${pad2 index}` ``. -/
def candidateBase (isoDate : String) (i : Nat) : String :=
  isoDate ++ " scan " ++ pad2 i

/-- The candidate path `path.join(targetDir, candidateBase + "." + ext)`. -/
def candidatePath (targetDir isoDate ext : String) (i : Nat) : String :=
  joinPath targetDir (candidateBase isoDate i ++ "." ++ ext)

/-- The `while (index < 100)` loop of `getDefaultFilename`, with the number
of remaining iterations made explicit (`fuel = 100 - index` at entry). -/
def getDefaultFilenameAux (fsExists : String → Bool) (targetDir isoDate ext : String) :
    Nat → Nat → Option String
  | 0, _ => none
  | fuel+1, i =>
    if fsExists (candidatePath targetDir isoDate ext i) then
      getDefaultFilenameAux fsExists targetDir isoDate ext fuel (i+1)
    else some (candidateBase isoDate i)

/-- src/src/_scan.js lines 183-203 (`getDefaultFilename`): first non-colliding
candidate with index 1..99; `none` models the thrown
`Error('No available filename found')`.  The current ISO date
(`new Date().toISOString().split('T')[0]`) is passed in explicitly. -/
def getDefaultFilename (fsExists : String → Bool) (targetDir isoDate ext : String) :
    Option String :=
  getDefaultFilenameAux fsExists targetDir isoDate ext 99 1

/-! ## Extension-versus-format reconciliation (src/src/_scan.js lines 288-294)

```js
if (ext === '') {
  ext = outputFormat
} else if (outputFormat !== 'pdf' && ext !== outputFormat) {
  warn(`you requested format '${outputFormat}' but gave extension '${ext}'`)
  process.exit()
}
```
A bare `process.exit()` terminates with the current `process.exitCode`,
which is `0` here — embedded as the exit code it actually produces. -/

inductive ExtResolution where
  | exit (code : Nat)
  | ok (ext : String)
deriving DecidableEq

def resolveExtOrExit (outputFormat ext : String) : ExtResolution :=
  if ext = "" then ExtResolution.ok outputFormat
  else if outputFormat ≠ "pdf" ∧ ext ≠ outputFormat then ExtResolution.exit 0
  else ExtResolution.ok ext

/-! ## The capture/naming orchestrator (src/src/_scan.js lines 305-331)

```js
const scanPromise = scanAndConvert(dir, filePath, ext, FAKEMODE)
const promptPromise = (promptingNeeded) ? promptForUserFilename(filePath, ext) : Promise.resolve(filePath)
Promise.all([promptPromise, scanPromise])
  .then(([finalFilePath]) => { ... })
  .catch(err => { ...; process.exit(1) })
```

The filesystem is a size map `String → Option Nat`; the `.then` continuation
is `postJoin`, which records the externally visible steps it takes as an
event trace and the exit code the `.catch` handler produces when one of its
steps throws (`0` models reaching the end of the continuation normally). -/

/-- Filesystem state: `fs p = some sz` iff a file of size `sz` exists at `p`. -/
def FS : Type := String → Option Nat

/-- The externally visible steps of the orchestrator. -/
inductive Event where
  | scanStart
  | promptStart
  | scanDone
  | promptDone
  | renameFile (src dst : String)
  | existsCheck (p : String)
  | sizeCheck (p : String)
  | openViewer (p : String)
deriving DecidableEq

def isRenameEvent : Event → Bool
  | Event.renameFile _ _ => true
  | _ => false

/-- The steps the orchestrator may only take after the join point. -/
def isPostJoinEvent : Event → Bool
  | Event.renameFile _ _ => true
  | Event.existsCheck _ => true
  | Event.sizeCheck _ => true
  | Event.openViewer _ => true
  | _ => false

def isExistsCheckEvent : Event → Bool
  | Event.existsCheck _ => true
  | _ => false

def isSizeCheckEvent : Event → Bool
  | Event.sizeCheck _ => true
  | _ => false

/-- `fs.renameSync(src, dst)`: moves the file, throwing (`none`) when the
source does not exist. -/
def fsRename (fs : FS) (src dst : String) : Option FS :=
  match fs src with
  | none => none
  | some sz => some (fun p => if p = dst then some sz else if p = src then none else fs p)

structure PostJoinResult where
  exitCode : Nat
  fs : FS
  events : List Event

/-- The `.then` continuation (src/src/_scan.js lines 308-327): conditional
rename, existence check, 10-KiB size check, optional viewer launch.  A throw
at any step is the `.catch` path, `process.exit(1)`. -/
def postJoin (fs : FS) (filePath finalFilePath : String) (openFlag : Bool) :
    PostJoinResult :=
  if filePath = finalFilePath then
    -- `info(...)` only; no filesystem mutation
    afterRename fs fs filePath finalFilePath openFlag []
  else
    match fsRename fs filePath finalFilePath with
    | none =>
      { exitCode := 1, fs := fs, events := [Event.renameFile filePath finalFilePath] }
    | some fs1 =>
      afterRename fs fs1 filePath finalFilePath openFlag
        [Event.renameFile filePath finalFilePath]
where
  /-- Lines 317-326: the sanity checks and the fire-and-forget `xdg-open`. -/
  afterRename (_fs0 fs1 : FS) (_filePath finalFilePath : String) (openFlag : Bool)
      (evs : List Event) : PostJoinResult :=
    match fs1 finalFilePath with
    | none =>
      { exitCode := 1, fs := fs1, events := evs ++ [Event.existsCheck finalFilePath] }
    | some sz =>
      if sz < 10 * 1024 then
        { exitCode := 1, fs := fs1,
          events := evs ++ [Event.existsCheck finalFilePath, Event.sizeCheck finalFilePath] }
      else
        { exitCode := 0, fs := fs1,
          events := evs ++ [Event.existsCheck finalFilePath, Event.sizeCheck finalFilePath] ++
            (if openFlag then [Event.openViewer finalFilePath] else []) }

/-- An arbitrary interleaving of two event streams, chosen by a schedule:
`true` advances the first stream, `false` the second.  `Promise.all` admits
every such interleaving of the two tasks' suspension histories. -/
def interleave : List Bool → List Event → List Event → List Event
  | [], xs, ys => xs ++ ys
  | true :: s, xs, ys =>
    match xs with
    | [] => ys
    | x :: xs' => x :: interleave s xs' ys
  | false :: s, xs, ys =>
    match ys with
    | [] => xs
    | y :: ys' => y :: interleave s xs ys'

/-- The orchestrator's whole event trace: both operations are started, their
completions interleave according to the (arbitrary) schedule, and only then
does the `Promise.all(...).then(...)` continuation run. -/
def orchestratorTrace (sched : List Bool) (fs : FS) (filePath finalFilePath : String)
    (openFlag : Bool) : List Event :=
  Event.scanStart :: Event.promptStart ::
    (interleave sched [Event.scanDone] [Event.promptDone] ++
      (postJoin fs filePath finalFilePath openFlag).events)

/-! ## Lemmas about the default-name loop -/

lemma getDefaultFilenameAux_first (fsE : String → Bool) (dir isoDate ext : String) :
    ∀ fuel i k, i ≤ k → k < i + fuel →
      (∀ j, i ≤ j → j < k → fsE (candidatePath dir isoDate ext j) = true) →
      fsE (candidatePath dir isoDate ext k) = false →
      getDefaultFilenameAux fsE dir isoDate ext fuel i = some (candidateBase isoDate k) := by
  intro fuel
  induction fuel with
  | zero => intro i k h1 h2 _ _; omega
  | succ f ih =>
    intro i k h1 h2 hall hk
    simp only [getDefaultFilenameAux]
    by_cases hik : i = k
    · subst hik
      rw [hk]
      simp
    · have hi : fsE (candidatePath dir isoDate ext i) = true := hall i le_rfl (by omega)
      rw [hi]
      simp only [if_pos rfl]
      exact ih (i+1) k (by omega) (by omega) (fun j hj1 hj2 => hall j (by omega) hj2) hk

lemma getDefaultFilenameAux_spec (fsE : String → Bool) (dir isoDate ext : String) :
    ∀ fuel i b, getDefaultFilenameAux fsE dir isoDate ext fuel i = some b →
      ∃ k, i ≤ k ∧ k < i + fuel ∧ b = candidateBase isoDate k ∧
        fsE (candidatePath dir isoDate ext k) = false ∧
        ∀ j, i ≤ j → j < k → fsE (candidatePath dir isoDate ext j) = true := by
  intro fuel
  induction fuel with
  | zero => intro i b h; simp [getDefaultFilenameAux] at h
  | succ f ih =>
    intro i b h
    simp only [getDefaultFilenameAux] at h
    by_cases hc : fsE (candidatePath dir isoDate ext i) = true
    · rw [if_pos hc] at h
      obtain ⟨k, hk1, hk2, hk3, hk4, hk5⟩ := ih (i+1) b h
      refine ⟨k, by omega, by omega, hk3, hk4, fun j hj1 hj2 => ?_⟩
      rcases Nat.eq_or_lt_of_le hj1 with heq | hlt
      · exact heq ▸ hc
      · exact hk5 j hlt hj2
    · rw [if_neg hc] at h
      refine ⟨i, le_rfl, by omega, (Option.some.inj h).symm, by simpa using hc,
        fun j hj1 hj2 => by omega⟩

lemma getDefaultFilenameAux_exhaust (fsE : String → Bool) (dir isoDate ext : String) :
    ∀ fuel i, (∀ j, i ≤ j → j < i + fuel → fsE (candidatePath dir isoDate ext j) = true) →
      getDefaultFilenameAux fsE dir isoDate ext fuel i = none := by
  intro fuel
  induction fuel with
  | zero => intro i _; rfl
  | succ f ih =>
    intro i h
    simp only [getDefaultFilenameAux]
    rw [h i le_rfl (by omega)]
    simp only [if_pos rfl]
    exact ih (i+1) (fun j hj1 hj2 => h j (by omega) (by omega))

lemma getDefaultFilenameAux_congr (fsE fsE' : String → Bool) (dir isoDate ext : String) :
    ∀ fuel i, (∀ j, i ≤ j → j < i + fuel →
        fsE' (candidatePath dir isoDate ext j) = fsE (candidatePath dir isoDate ext j)) →
      getDefaultFilenameAux fsE' dir isoDate ext fuel i
        = getDefaultFilenameAux fsE dir isoDate ext fuel i := by
  intro fuel
  induction fuel with
  | zero => intro i _; rfl
  | succ f ih =>
    intro i h
    simp only [getDefaultFilenameAux]
    rw [h i le_rfl (by omega), ih (i+1) (fun j hj1 hj2 => h j (by omega) (by omega))]

/-- Claim C9: when the resolved basename is empty, the default-name generator
returns the first candidate of the form `<isoDate> scan <2-digit index>`
(the source's literal for the spec's "capture" token), starting at index 01,
whose `directory/candidate.extension` does not already exist — for every
directory state: whatever it returns is the first non-colliding candidate,
and the first non-colliding candidate (when one exists within the ceiling)
is what it returns; in particular with indices 01 through 05 taken and 06
free it returns the index-06 candidate. -/
theorem defaultFilename_first_free (fsE : String → Bool) (dir isoDate ext : String) :
    (∀ b, getDefaultFilename fsE dir isoDate ext = some b →
      ∃ k, 1 ≤ k ∧ k ≤ 99 ∧ b = candidateBase isoDate k ∧
        fsE (candidatePath dir isoDate ext k) = false ∧
        ∀ j, 1 ≤ j → j < k → fsE (candidatePath dir isoDate ext j) = true) ∧
    (∀ k, 1 ≤ k → k ≤ 99 →
      fsE (candidatePath dir isoDate ext k) = false →
      (∀ j, 1 ≤ j → j < k → fsE (candidatePath dir isoDate ext j) = true) →
      getDefaultFilename fsE dir isoDate ext = some (candidateBase isoDate k)) ∧
    ((∀ i, 1 ≤ i → i ≤ 5 → fsE (candidatePath dir isoDate ext i) = true) →
      fsE (candidatePath dir isoDate ext 6) = false →
      getDefaultFilename fsE dir isoDate ext = some (candidateBase isoDate 6)) := by
  refine ⟨?_, ?_, ?_⟩
  · intro b hb
    obtain ⟨k, hk1, hk2, hk3, hk4, hk5⟩ :=
      getDefaultFilenameAux_spec fsE dir isoDate ext 99 1 b hb
    exact ⟨k, hk1, by omega, hk3, hk4, hk5⟩
  · intro k hk1 hk2 hkfree hbelow
    exact getDefaultFilenameAux_first fsE dir isoDate ext 99 1 k hk1 (by omega) hbelow hkfree
  · intro h5 h6
    exact getDefaultFilenameAux_first fsE dir isoDate ext 99 1 6 (by omega) (by omega)
      (fun j hj1 hj2 => h5 j hj1 (by omega)) h6

/-- Witness for C9: a directory snapshot holding exactly the candidates 01-05
for 2024-10-16 yields "2024-10-16 scan 06", and an empty directory yields
the first candidate "2024-10-16 scan 01". -/
theorem defaultFilename_first_free_witness :
    getDefaultFilename
      (fun p => p ∈ ["/d/2024-10-16 scan 01.pdf", "/d/2024-10-16 scan 02.pdf",
        "/d/2024-10-16 scan 03.pdf", "/d/2024-10-16 scan 04.pdf",
        "/d/2024-10-16 scan 05.pdf"]) "/d" "2024-10-16" "pdf"
      = some "2024-10-16 scan 06" ∧
    getDefaultFilename (fun _ => false) "/d" "2024-10-16" "pdf"
      = some "2024-10-16 scan 01" := by
  constructor
  · have h := (defaultFilename_first_free
      (fun p => p ∈ ["/d/2024-10-16 scan 01.pdf", "/d/2024-10-16 scan 02.pdf",
        "/d/2024-10-16 scan 03.pdf", "/d/2024-10-16 scan 04.pdf",
        "/d/2024-10-16 scan 05.pdf"]) "/d" "2024-10-16" "pdf").2.2
      (by intro i h1 h2; interval_cases i <;> decide) (by decide)
    exact h.trans (by decide)
  · have h := (defaultFilename_first_free (fun _ => false) "/d" "2024-10-16" "pdf").2.1
      1 le_rfl (by omega) rfl (fun j hj1 hj2 => by omega)
    exact h.trans (by decide)

/-- Claim C10: the generator examines at most the 99 date-stamped candidates:
with all of them occupied it returns the fatal exhaustion error (`none`
models the thrown `Error('No available filename found')`), and its result
depends on the directory state only through those 99 candidate paths. -/
theorem defaultFilename_exhaustion (fsE : String → Bool) (dir isoDate ext : String)
    (h : ∀ i, 1 ≤ i → i ≤ 99 → fsE (candidatePath dir isoDate ext i) = true) :
    getDefaultFilename fsE dir isoDate ext = none ∧
    ∀ fsE' : String → Bool,
      (∀ i, 1 ≤ i → i ≤ 99 →
        fsE' (candidatePath dir isoDate ext i) = fsE (candidatePath dir isoDate ext i)) →
      getDefaultFilename fsE' dir isoDate ext = getDefaultFilename fsE dir isoDate ext := by
  constructor
  · exact getDefaultFilenameAux_exhaust fsE dir isoDate ext 99 1
      (fun j hj1 hj2 => h j hj1 (by omega))
  · intro fsE' h'
    exact getDefaultFilenameAux_congr fsE fsE' dir isoDate ext 99 1
      (fun j hj1 hj2 => h' j hj1 (by omega))

/-- Witness for C10: every path occupied; the generator reports exhaustion. -/
theorem defaultFilename_exhaustion_witness :
    getDefaultFilename (fun _ => true) "/d" "2024-10-16" "pdf" = none := by
  exact (defaultFilename_exhaustion (fun _ => true) "/d" "2024-10-16" "pdf"
    (fun i _ _ => rfl)).1

/-! ## Destination-resolution claims -/

/-- Claim C6: with an empty residual path and the current working directory
equal to the script's own directory or the home directory, resolution yields
`homeDir/Pictures/scan` with empty basename (and unresolved extension). -/
theorem getDestination_empty_dangerous (env : Env)
    (h : env.currentDir = env.scriptDir ∨ env.currentDir = env.homeDir) :
    getDestination env []
      = DestResult.ok (joinPath (joinPath env.homeDir "Pictures") "scan") "" "" := by
  have htrim : trimString (String.intercalate " " ([] : List String)) = "" := rfl
  simp only [getDestination, htrim, avoidScriptAndHomeDir]
  rw [if_pos h]
  simp

/-- Witness for C6: a concrete environment whose current directory is the
home directory. -/
theorem getDestination_empty_dangerous_witness :
    getDestination
      { scriptDir := "/opt/scan", homeDir := "/home/u", currentDir := "/home/u",
        fsIsDir := fun _ => false, fsExists := fun _ => false } []
      = DestResult.ok "/home/u/Pictures/scan" "" "" := by
  exact (getDestination_empty_dangerous
    { scriptDir := "/opt/scan", homeDir := "/home/u", currentDir := "/home/u",
      fsIsDir := fun _ => false, fsExists := fun _ => false }
    (Or.inr rfl)).trans (by decide)

/-- Claim C7: a non-empty residual path naming an existing directory is
returned verbatim with empty basename; the dangerous-directory substitution
is not applied (the environment is arbitrary, so in particular the result is
verbatim even when the path equals the home or script directory). -/
theorem getDestination_explicit_dir (env : Env) (args : List String)
    (h1 : trimString (String.intercalate " " args) ≠ "")
    (h2 : env.fsIsDir (trimString (String.intercalate " " args)) = true) :
    getDestination env args
      = DestResult.ok (trimString (String.intercalate " " args)) "" "" := by
  simp only [getDestination]
  rw [if_neg h1, if_pos h2]

/-- Witness for C7: the requested directory is the home directory itself and
it is still returned verbatim, not substituted. -/
theorem getDestination_explicit_dir_witness :
    getDestination
      { scriptDir := "/opt/scan", homeDir := "/home/u", currentDir := "/tmp",
        fsIsDir := fun p => p == "/home/u", fsExists := fun _ => false }
      ["/home/u"]
      = DestResult.ok "/home/u" "" "" := by
  exact getDestination_explicit_dir
    { scriptDir := "/opt/scan", homeDir := "/home/u", currentDir := "/tmp",
      fsIsDir := fun p => p == "/home/u", fsExists := fun _ => false }
    ["/home/u"] (by decide) (by decide)

/-- Claim C8: when the final segment's extension is not one of
pdf/jpg/png, the whole final segment is kept as the basename (no extension
split) and the extension is left unresolved (`""`), which the main flow then
replaces by the requested output format. -/
theorem getDestination_unknown_extension (env : Env) (args : List String)
    (rawPath outputFormat : String)
    (hraw : trimString (String.intercalate " " args) = rawPath)
    (h1 : rawPath ≠ "")
    (h2 : env.fsIsDir rawPath = false)
    (hext : knownExtensions.contains
      (strLower (strLower (stripFirstDot (pathExtname rawPath)))) = false)
    (hval : validFilename (pathBasename rawPath).data = true)
    (hdir : env.fsExists (pathDirname rawPath) = true) :
    getDestination env args
      = DestResult.ok (avoidScriptAndHomeDir env (pathDirname rawPath))
          (pathBasename rawPath) "" ∧
    resolveExtOrExit outputFormat "" = ExtResolution.ok outputFormat := by
  constructor
  · simp only [getDestination, hraw]
    rw [if_neg h1, h2]
    simp only [Bool.false_eq_true, if_false, hext, hval, Bool.not_true, hdir,
      Bool.not_false, if_pos rfl]
    simp [pathBasenameSuffix]
  · simp [resolveExtOrExit]

/-- Witness for C8: the spec's own example `/existing/dir/notes.txt`. -/
theorem getDestination_unknown_extension_witness :
    getDestination
      { scriptDir := "/opt/scan", homeDir := "/home/u", currentDir := "/tmp",
        fsIsDir := fun _ => false, fsExists := fun p => p == "/existing/dir" }
      ["/existing/dir/notes.txt"]
      = DestResult.ok "/existing/dir" "notes.txt" "" ∧
    resolveExtOrExit "pdf" "" = ExtResolution.ok "pdf" := by
  have h := getDestination_unknown_extension
    { scriptDir := "/opt/scan", homeDir := "/home/u", currentDir := "/tmp",
      fsIsDir := fun _ => false, fsExists := fun p => p == "/existing/dir" }
    ["/existing/dir/notes.txt"] "/existing/dir/notes.txt" "pdf"
    (by decide) (by decide) rfl (by decide) (by decide) rfl
  exact ⟨h.1.trans (by decide), h.2⟩

/-! ## Exit-code claim (C4)

All other validation failures (`getDestination`), the capture/naming
failures and the sanity-check failures exit with code 1 (modelled by
`DestResult.exit 1` and `postJoin`'s exit code below), and help exits 0.
The extension-format conflict branch, however, calls a bare
`process.exit()`, which terminates with exit code 0, contradicting the
claim (and the `process.exit(1)` convention of every sibling validation
branch in the same file). -/

/-- Claim C4 (code bug): evaluating the conflict branch at the failing
input: requested format jpg with explicit extension png makes the program
exit with code 0, not 1 as the claim requires for validation failures. -/
theorem formatConflict_exits_zero :
    resolveExtOrExit "jpg" "png" = ExtResolution.exit 0 ∧
    resolveExtOrExit "jpg" "png" ≠ ExtResolution.exit 1 := by
  exact ⟨by decide, by decide⟩

/-! ## Post-join claims (C2, C3) -/

/-- Claim C2: after the join, the orchestrator renames exactly once — to the
naming result — when the naming path differs from the capture target, and
performs no rename and no filesystem mutation at all when they coincide. -/
theorem postJoin_rename_iff_diverged (fs : FS) (filePath finalFilePath : String)
    (openFlag : Bool) :
    ((postJoin fs filePath finalFilePath openFlag).events.countP isRenameEvent
      = if filePath = finalFilePath then 0 else 1) ∧
    (filePath ≠ finalFilePath →
      Event.renameFile filePath finalFilePath
        ∈ (postJoin fs filePath finalFilePath openFlag).events) ∧
    (filePath = finalFilePath → (postJoin fs filePath finalFilePath openFlag).fs = fs) := by
  by_cases h : filePath = finalFilePath
  · subst h
    refine ⟨?_, fun hne => absurd rfl hne, fun _ => ?_⟩ <;>
      · simp only [postJoin, if_pos rfl, postJoin.afterRename]
        cases hfs : fs filePath with
        | none => simp [isRenameEvent]
        | some sz =>
          by_cases hsz : sz < 10 * 1024 <;>
            cases openFlag <;>
              simp [hsz, List.countP_append, List.countP_cons, isRenameEvent]
  · refine ⟨?_, fun _ => ?_, fun heq => absurd heq h⟩ <;>
      · simp only [postJoin, if_neg h, postJoin.afterRename]
        cases hr : fsRename fs filePath finalFilePath with
        | none => simp [isRenameEvent]
        | some fs1 =>
          cases hfs : fs1 finalFilePath with
          | none => simp [hfs, h, isRenameEvent, List.countP_append, List.countP_cons]
          | some sz =>
            by_cases hsz : sz < 10 * 1024 <;>
              cases openFlag <;>
                simp [hfs, h, hsz, List.countP_append, List.countP_cons, isRenameEvent]

/-- Witness for C2: identical paths — no rename event, filesystem unchanged. -/
theorem postJoin_rename_iff_diverged_witness :
    ((postJoin (fun _ => some 20480) "/d/a.pdf" "/d/a.pdf" true).events.countP
        isRenameEvent = 0) ∧
    (postJoin (fun _ => some 20480) "/d/a.pdf" "/d/a.pdf" true).fs
      = (fun _ => some 20480) := by
  have h := postJoin_rename_iff_diverged (fun _ => some 20480) "/d/a.pdf" "/d/a.pdf" true
  exact ⟨by simpa using h.1, h.2.2 rfl⟩

/-- Claim C3 (amended): the post-join run succeeds (exit code 0) exactly when
the rename step did not throw and the final artifact exists with size at
least 10 KiB (10240 bytes); otherwise it fails with exit code 1, and each
sanity check is performed at most once (no retry). -/
theorem postJoin_sanity_check (fs : FS) (filePath finalFilePath : String)
    (openFlag : Bool) :
    ((postJoin fs filePath finalFilePath openFlag).exitCode = 0 ↔
      (filePath = finalFilePath ∨ fs filePath ≠ none) ∧
      ∃ sz, (postJoin fs filePath finalFilePath openFlag).fs finalFilePath = some sz ∧
        10 * 1024 ≤ sz) ∧
    ((postJoin fs filePath finalFilePath openFlag).exitCode = 0 ∨
      (postJoin fs filePath finalFilePath openFlag).exitCode = 1) ∧
    (postJoin fs filePath finalFilePath openFlag).events.countP isExistsCheckEvent ≤ 1 ∧
    (postJoin fs filePath finalFilePath openFlag).events.countP isSizeCheckEvent ≤ 1 := by
  by_cases h : filePath = finalFilePath
  · subst h
    simp only [postJoin, if_pos rfl, postJoin.afterRename]
    cases hfs : fs filePath with
    | none => simp [hfs, isExistsCheckEvent, isSizeCheckEvent]
    | some sz =>
      by_cases hsz : sz < 10 * 1024 <;>
        cases openFlag <;>
          simp [hfs, hsz, List.countP_append, List.countP_cons,
            isExistsCheckEvent, isSizeCheckEvent] <;>
        omega
  · simp only [postJoin, if_neg h, postJoin.afterRename]
    cases hr : fsRename fs filePath finalFilePath with
    | none =>
      have hnone : fs filePath = none := by
        by_contra hc
        cases hfp : fs filePath with
        | none => exact hc hfp
        | some sz => simp [fsRename, hfp] at hr
      simp [hnone, h, isExistsCheckEvent, isSizeCheckEvent]
    | some fs1 =>
      have hsome : fs filePath ≠ none := by
        cases hfp : fs filePath with
        | none => simp [fsRename, hfp] at hr
        | some sz => simp [hfp]
      cases hfs : fs1 finalFilePath with
      | none => simp [hfs, h, hsome, isExistsCheckEvent, isSizeCheckEvent,
          List.countP_append, List.countP_cons]
      | some sz =>
        by_cases hsz : sz < 10 * 1024 <;>
          cases openFlag <;>
            simp [hfs, hsz, h, hsome, List.countP_append, List.countP_cons,
              isExistsCheckEvent, isSizeCheckEvent] <;>
          omega

/-- Counterexample for C3 as stated: with the artifact at exactly 10240
bytes the run succeeds (exit code 0), although 10240 does not *exceed*
10 KiB — the source check is `size < 10 * 1024`, a non-strict floor. -/
theorem postJoin_boundary_succeeds :
    (postJoin (fun p => if p = "/d/a.pdf" then some (10 * 1024) else none)
      "/d/a.pdf" "/d/a.pdf" false).exitCode = 0 ∧
    ¬ (10 * 1024 > 10 * 1024) := by
  exact ⟨by decide, by omega⟩

/-! ## The join point (C1) -/

lemma mem_interleave {e : Event} :
    ∀ (sched : List Bool) (xs ys : List Event),
      e ∈ interleave sched xs ys ↔ e ∈ xs ∨ e ∈ ys
  | [], xs, ys => by simp [interleave]
  | true :: s, xs, ys => by
    cases xs with
    | nil => simp [interleave]
    | cons x xs' =>
      simp only [interleave, List.mem_cons, mem_interleave s xs' ys]
      tauto
  | false :: s, xs, ys => by
    cases ys with
    | nil => simp [interleave]
    | cons y ys' =>
      simp only [interleave, List.mem_cons, mem_interleave s xs ys']
      tauto

/-- Claim C1: in every admissible interleaving of the two concurrently
started operations, the whole trace splits into a prefix that contains both
completions and none of the post-join steps (rename, existence check, size
check, viewer launch), followed by exactly the post-join steps: the join
waits for both completions, never for the first alone. -/
theorem orchestrator_join_waits_for_both (sched : List Bool) (fs : FS)
    (filePath finalFilePath : String) (openFlag : Bool) :
    ∃ pre, orchestratorTrace sched fs filePath finalFilePath openFlag
        = pre ++ (postJoin fs filePath finalFilePath openFlag).events ∧
      Event.scanDone ∈ pre ∧ Event.promptDone ∈ pre ∧
      ∀ e ∈ pre, isPostJoinEvent e = false := by
  refine ⟨Event.scanStart :: Event.promptStart ::
    interleave sched [Event.scanDone] [Event.promptDone], rfl, ?_, ?_, ?_⟩
  · simp [mem_interleave]
  · simp [mem_interleave]
  · intro e he
    rcases List.mem_cons.1 he with rfl | he'
    · rfl
    · rcases List.mem_cons.1 he' with rfl | he''
      · rfl
      · rcases (mem_interleave sched _ _).1 he'' with h1 | h1 <;>
          · simp only [List.mem_singleton] at h1
            subst h1
            rfl

/-! ## Lemmas about the filename validator (C5) -/

lemma takeWhile_append_of_all {p : Char → Bool} :
    ∀ {a : List Char} (b : List Char), (∀ c ∈ a, p c = true) →
      (a ++ b).takeWhile p = a ++ b.takeWhile p
  | [], _, _ => rfl
  | x :: a', b, h => by
    have hx : p x = true := h x (List.mem_cons_self x a')
    simp only [List.cons_append, List.takeWhile_cons_of_pos hx]
    rw [takeWhile_append_of_all b (fun c hc => h c (List.mem_cons_of_mem x hc))]

lemma dropWhile_append_of_all {p : Char → Bool} :
    ∀ {a : List Char} (b : List Char), (∀ c ∈ a, p c = true) →
      (a ++ b).dropWhile p = b.dropWhile p
  | [], _, _ => rfl
  | x :: a', b, h => by
    have hx : p x = true := h x (List.mem_cons_self x a')
    simp only [List.cons_append, List.dropWhile_cons_of_pos hx]
    exact dropWhile_append_of_all b (fun c hc => h c (List.mem_cons_of_mem x hc))

lemma dropWhile_length_le (p : Char → Bool) :
    ∀ l : List Char, (l.dropWhile p).length ≤ l.length
  | [] => le_rfl
  | x :: l => by
    by_cases hx : p x = true
    · rw [List.dropWhile_cons_of_pos hx]
      exact le_trans (dropWhile_length_le p l) (Nat.le_succ _)
    · rw [List.dropWhile_cons_of_neg hx]

lemma bool_and_split {a b : Bool} (h : (a && b) = true) : a = true ∧ b = true := by
  simp only [Bool.and_eq_true] at h
  exact h

lemma bool_and_intro {a b : Bool} (h1 : a = true) (h2 : b = true) : (a && b) = true := by
  rw [h1, h2]
  rfl

lemma bool_or_split {a b : Bool} (h : (a || b) = true) : a = true ∨ b = true := by
  simp only [Bool.or_eq_true] at h
  exact h

lemma bool_not_true {b : Bool} (h : (!b) = true) : b = false := by
  simp only [Bool.not_eq_true'] at h
  exact h

lemma good2_imp_good1 {c : Char} (h : goodChar2 c = true) : goodChar1 c = true :=
  (bool_and_split h).1

lemma good1_not_bad_not_space {c : Char} (h : goodChar1 c = true) :
    badFilenameChar c = false ∧ isSpaceChar c = false := by
  unfold goodChar1 at h
  obtain ⟨h1, h2⟩ := bool_and_split h
  exact ⟨bool_not_true h1, bool_not_true h2⟩

lemma good1_not_space_beq {c : Char} (h : goodChar1 c = true) : (c == ' ') = false := by
  by_contra hc
  rw [Bool.not_eq_false] at hc
  have hs : isSpaceChar c = true := by unfold isSpaceChar; rw [hc]; rfl
  rw [(good1_not_bad_not_space h).2] at hs
  cases hs

/-- The head of a (possibly empty) group list is a delimiter, hence not a
`goodChar2` character, so group-run munching stops exactly there. -/
lemma GroupsG_head_stops {run : Char → Bool} {rest : List Char} (hg : GroupsG run rest) :
    rest.takeWhile goodChar2 = [] ∧ rest.dropWhile goodChar2 = rest := by
  cases hg with
  | nil => exact ⟨rfl, rfl⟩
  | cons d r rest' hd hr hrun hrest =>
    have hd2 : ¬ goodChar2 d = true := by
      rcases hd with rfl | rfl <;> decide
    exact ⟨List.takeWhile_cons_of_neg hd2, List.dropWhile_cons_of_neg hd2⟩

lemma groupsOk_complete {rest : List Char} (hg : GroupsG goodChar2 rest) :
    ∀ fuel, rest.length ≤ fuel → groupsOk fuel rest = true := by
  induction hg with
  | nil => intro fuel _; cases fuel <;> rfl
  | cons d r rest' hd hr hrun hrest ih =>
    intro fuel hlen
    cases fuel with
    | zero => simp at hlen
    | succ f =>
      have hdel : (d == ' ' || d == '.') = true := by rcases hd with rfl | rfl <;> decide
      have hrlen : 1 ≤ r.length := List.length_pos.2 hr
      have hlen' : rest'.length ≤ f := by
        simp only [List.length_cons, List.length_append] at hlen
        omega
      simp only [groupsOk, hdel, Bool.true_and, Bool.and_eq_true, Bool.not_eq_true',
        takeWhile_append_of_all rest' hrun, dropWhile_append_of_all rest' hrun,
        (GroupsG_head_stops hrest).1, (GroupsG_head_stops hrest).2, List.append_nil]
      refine ⟨?_, ih f hlen'⟩
      cases r with
      | nil => exact absurd rfl hr
      | cons _ _ => rfl

/-- Dropping the maximal `goodChar1` prefix of a group list only absorbs
whole `'.'`-delimited groups, leaving a group list. -/
lemma GroupsG_dropWhile_good1 {rest : List Char} (hg : GroupsG goodChar2 rest) :
    GroupsG goodChar2 (rest.dropWhile goodChar1) := by
  induction hg with
  | nil => exact GroupsG.nil
  | cons d r rest' hd hr hrun hrest ih =>
    rcases hd with rfl | rfl
    · rw [List.dropWhile_cons_of_neg (by decide)]
      exact GroupsG.cons ' ' r rest' (Or.inl rfl) hr hrun hrest
    · rw [List.dropWhile_cons_of_pos (by decide),
        dropWhile_append_of_all rest' (fun c hc => good2_imp_good1 (hrun c hc))]
      exact ih

lemma validFilename_complete {s : List Char} (h : FilenameGrammar goodChar2 s) :
    validFilename s = true := by
  obtain ⟨r0, rest, rfl, hr0ne, hr0, hrest⟩ := h
  unfold validFilename
  rw [takeWhile_append_of_all rest hr0, dropWhile_append_of_all rest hr0]
  refine bool_and_intro ?_ ?_
  · cases r0 with
    | nil => exact absurd rfl hr0ne
    | cons _ _ => rfl
  · refine groupsOk_complete (GroupsG_dropWhile_good1 hrest) _ ?_
    calc (rest.dropWhile goodChar1).length ≤ rest.length := dropWhile_length_le _ _
      _ ≤ (r0 ++ rest).length := by simp

lemma hasDoubleSpace_cons₂ (a b : Char) (t : List Char) :
    hasDoubleSpace (a :: b :: t) = ((a == ' ' && b == ' ') || hasDoubleSpace (b :: t)) := rfl

lemma hasDoubleSpace_append_of_no_space :
    ∀ {xs : List Char} (ys : List Char), (∀ c ∈ xs, (c == ' ') = false) →
      hasDoubleSpace (xs ++ ys) = hasDoubleSpace ys
  | [], _, _ => rfl
  | [a], ys, h => by
    cases ys with
    | nil => rfl
    | cons b t =>
      have ha := h a (List.mem_singleton_self a)
      simp [hasDoubleSpace_cons₂, ha]
  | a :: a2 :: xs', ys, h => by
    have ha := h a (List.mem_cons_self a _)
    have hrec := @hasDoubleSpace_append_of_no_space (a2 :: xs') ys
      (fun c hc => h c (List.mem_cons_of_mem a hc))
    simp only [List.cons_append] at hrec ⊢
    rw [hasDoubleSpace_cons₂, ha, Bool.false_and, Bool.false_or]
    exact hrec

lemma groupsOk_sound : ∀ fuel (s : List Char), groupsOk fuel s = true →
    (∀ c ∈ s, badFilenameChar c = false) ∧ hasDoubleSpace s = false := by
  intro fuel
  induction fuel with
  | zero =>
    intro s h
    cases s with
    | nil => exact ⟨by simp, rfl⟩
    | cons c t => simp [groupsOk] at h
  | succ f ih =>
    intro s h
    cases s with
    | nil => exact ⟨by simp, rfl⟩
    | cons c rest =>
      simp only [groupsOk] at h
      have hdel : (c == ' ' || c == '.') = true := (bool_and_split (bool_and_split h).1).1
      have hne : (rest.takeWhile goodChar2).isEmpty = false :=
        bool_not_true (bool_and_split (bool_and_split h).1).2
      have hrec : groupsOk f (rest.dropWhile goodChar2) = true :=
        (bool_and_split h).2
      have hsplit : rest.takeWhile goodChar2 ++ rest.dropWhile goodChar2 = rest :=
        List.takeWhile_append_dropWhile goodChar2 rest
      have hrun : ∀ x ∈ rest.takeWhile goodChar2, goodChar2 x = true :=
        fun x hx => List.mem_takeWhile_imp hx
      have hD := ih (rest.dropWhile goodChar2) hrec
      have hcbad : badFilenameChar c = false := by
        rcases bool_or_split hdel with h1 | h1
        · rw [beq_iff_eq.1 h1]; rfl
        · rw [beq_iff_eq.1 h1]; rfl
      constructor
      · intro x hx
        rcases List.mem_cons.1 hx with rfl | hx'
        · exact hcbad
        · rw [← hsplit] at hx'
          rcases List.mem_append.1 hx' with h1 | h1
          · exact (good1_not_bad_not_space (good2_imp_good1 (hrun x h1))).1
          · exact hD.1 x h1
      · cases hr : rest.takeWhile goodChar2 with
        | nil => rw [hr] at hne; cases hne
        | cons r0 r' =>
          have hr0 : goodChar2 r0 = true := hrun r0 (by rw [hr]; exact List.mem_cons_self _ _)
          have hr0s : (r0 == ' ') = false := good1_not_space_beq (good2_imp_good1 hr0)
          have hrns : ∀ x ∈ r0 :: r', (x == ' ') = false := by
            intro x hx
            rw [← hr] at hx
            exact good1_not_space_beq (good2_imp_good1 (hrun x hx))
          have hrest : rest = (r0 :: r') ++ rest.dropWhile goodChar2 := by
            conv_lhs => rw [← hsplit, hr]
          have happ := @hasDoubleSpace_append_of_no_space (r0 :: r')
            (rest.dropWhile goodChar2) hrns
          simp only [List.cons_append] at happ hrest
          rw [hrest, hasDoubleSpace_cons₂, hr0s, Bool.and_false, Bool.false_or, happ]
          exact hD.2

lemma validFilename_sound {s : List Char} (h : validFilename s = true) :
    (∀ c ∈ s, badFilenameChar c = false) ∧ hasDoubleSpace s = false := by
  unfold validFilename at h
  have hrec : groupsOk s.length (s.dropWhile goodChar1) = true := (bool_and_split h).2
  have hsplit : s.takeWhile goodChar1 ++ s.dropWhile goodChar1 = s :=
    List.takeWhile_append_dropWhile goodChar1 s
  have hT : ∀ c ∈ s.takeWhile goodChar1, goodChar1 c = true :=
    fun c hc => List.mem_takeWhile_imp hc
  have hD := groupsOk_sound s.length (s.dropWhile goodChar1) hrec
  constructor
  · intro c hc
    rw [← hsplit] at hc
    rcases List.mem_append.1 hc with h1 | h1
    · exact (good1_not_bad_not_space (hT c h1)).1
    · exact hD.1 c h1
  · have hTns : ∀ c ∈ s.takeWhile goodChar1, (c == ' ') = false :=
      fun c hc => good1_not_space_beq (hT c hc)
    calc hasDoubleSpace s
        = hasDoubleSpace (s.takeWhile goodChar1 ++ s.dropWhile goodChar1) := by rw [hsplit]
      _ = hasDoubleSpace (s.dropWhile goodChar1) :=
          hasDoubleSpace_append_of_no_space _ hTns
      _ = false := hD.2

/-- Counterexample for C5 as stated: "a .b" matches the claim's grammar (no
excluded character, no double space; `".b"` is a run of characters outside
the excluded set and whitespace), yet the validator rejects it — the regex's
continuation runs additionally exclude the dot. -/
theorem validFilename_dot_run_counterexample :
    FilenameGrammar goodChar1 ['a', ' ', '.', 'b'] ∧
    validFilename ['a', ' ', '.', 'b'] = false := by
  constructor
  · refine ⟨['a'], [' ', '.', 'b'], rfl, by simp, by decide, ?_⟩
    have he : ([' ', '.', 'b'] : List Char) = ' ' :: (['.', 'b'] ++ []) := rfl
    rw [he]
    exact GroupsG.cons ' ' ['.', 'b'] [] (Or.inl rfl) (by simp) (by decide) GroupsG.nil
  · decide

/-- Claim C5 (amended): the validator accepts every string of the corrected
filename grammar (first run excluding the listed characters and whitespace;
each later group a single space or dot followed by a run additionally
excluding the dot), and rejects every string containing an excluded
character or a literal double space. -/
theorem validFilename_grammar (s : List Char) :
    (FilenameGrammar goodChar2 s → validFilename s = true) ∧
    ((∃ c ∈ s, badFilenameChar c = true) → validFilename s = false) ∧
    (hasDoubleSpace s = true → validFilename s = false) := by
  refine ⟨validFilename_complete, ?_, ?_⟩
  · rintro ⟨c, hc, hbad⟩
    by_contra hv
    rw [Bool.not_eq_false] at hv
    rw [(validFilename_sound hv).1 c hc] at hbad
    cases hbad
  · intro hdd
    by_contra hv
    rw [Bool.not_eq_false] at hv
    rw [(validFilename_sound hv).2] at hdd
    cases hdd

/-- Witness for C5 (amended): "a.b" (grammar) accepted; "a<b" (excluded
character) and a double space rejected. -/
theorem validFilename_grammar_witness :
    validFilename ['a', '.', 'b'] = true ∧
    validFilename ['a', '<', 'b'] = false ∧
    validFilename ['a', ' ', ' ', 'b'] = false := by
  refine ⟨(validFilename_grammar ['a', '.', 'b']).1 ?_,
    (validFilename_grammar ['a', '<', 'b']).2.1 ⟨'<', by simp, by decide⟩,
    (validFilename_grammar ['a', ' ', ' ', 'b']).2.2 (by decide)⟩
  refine ⟨['a'], ['.', 'b'], rfl, by simp, by decide, ?_⟩
  have he : (['.', 'b'] : List Char) = '.' :: (['b'] ++ []) := rfl
  rw [he]
  exact GroupsG.cons '.' ['b'] [] (Or.inr rfl) (by simp) (by decide) GroupsG.nil

end Scan
